import Mathlib

/-!
Shallow embedding of the multi-account credential manager and the IMAP
session adapter of the gmail-mcp repository.

Two account managers exist in the source tree: the Gmail OAuth manager
(src/account-manager.ts) and the iCloud app-password manager
(packages/icloud, AccountManager with ensureAliasAvailable).  Both are
embedded here, together with the pure decision logic of the iCloud IMAP
client (imap-client.ts) and the generic batch helper processBatches from
the Gmail server.

File-system effects (credential files, the registry file, the
active-account file) are modelled as explicit fields of a state record;
every write in the source becomes a state update in source order, and a
thrown error returns the state as it was at the throw site, so that
atomicity statements are meaningful.
-/

namespace GmailMcp

/-- Errors raised by the account managers, mirroring the thrown
`Error` messages of the source. -/
inductive AccErr where
  | notFound (ident : String)
  | aliasEmailCollision (a : String) (email : String)
  | aliasInUse (a : String) (email : String)
  | noAccounts
  | noActive
  | credMissing (email : String)
  deriving DecidableEq, Repr

/-- The two alias-collision errors, as opposed to not-found and similar. -/
def AccErr.isCollision : AccErr → Bool
  | .aliasEmailCollision _ _ => true
  | .aliasInUse _ _ => true
  | _ => false

/-- fs.writeFileSync: replace the content at a path, or create the file. -/
def writeFile {γ : Type} (fs : List (String × γ)) (p : String) (c : γ) : List (String × γ) :=
  if fs.any (fun q => q.1 == p) then fs.map (fun q => if q.1 = p then (p, c) else q)
  else fs ++ [(p, c)]

/-- fs.unlinkSync: remove the file at a path. -/
def unlinkFile {γ : Type} (fs : List (String × γ)) (p : String) : List (String × γ) :=
  fs.filter (fun q => ¬ q.1 = p)

/-- fs.existsSync for the modelled file system. -/
def fileExists {γ : Type} (fs : List (String × γ)) (p : String) : Bool :=
  fs.any (fun q => q.1 == p)

/-- Truthiness of an optional string, as JavaScript `if (s)`:
false for undefined and for the empty string. -/
def jsTruthy : Option String → Bool
  | some a => !(a == "")
  | none => false

namespace Icloud

/-- packages/icloud types.ts AccountCredentials. -/
structure AccountCredentials where
  email : String
  appPassword : String
  deriving DecidableEq, Repr

/-- packages/icloud types.ts AccountInfo.  The source field `alias` is
rendered `aliasName` because `alias` is a command keyword in this
environment. -/
structure AccountInfo where
  email : String
  aliasName : Option String
  credentialsPath : String
  lastUsed : Nat
  deriving DecidableEq, Repr

/-- The persistent state of the iCloud AccountManager: the registry (an
insertion-ordered map keyed by email, as a JavaScript object), the
credential files on disk, and the active-account file content. -/
structure MState where
  registry : List AccountInfo
  files : List (String × AccountCredentials)
  active : Option String
  deriving DecidableEq, Repr

/-- `this.registry[email]` read access. -/
def lookupAccount (r : List AccountInfo) (email : String) : Option AccountInfo :=
  r.find? (fun a => a.email == email)

/-- `this.registry[email] = info`: replace in place when the key exists
(JavaScript objects keep the original position of an updated key),
otherwise append. -/
def insertAccount (r : List AccountInfo) (a : AccountInfo) : List AccountInfo :=
  if (lookupAccount r a.email).isSome then r.map (fun b => if b.email = a.email then a else b)
  else r ++ [a]

/-- AccountManager.resolveEmailFromAlias: registered email passes through
unchanged, otherwise the first entry with an exactly equal alias wins,
otherwise the identifier passes through unchanged. -/
def resolveEmailFromAlias (r : List AccountInfo) (emailOrAlias : String) : String :=
  if (lookupAccount r emailOrAlias).isSome then emailOrAlias
  else
    match r.find? (fun a => a.aliasName == some emailOrAlias) with
    | some a => a.email
    | none => emailOrAlias

/-- AccountManager.ensureAliasAvailable: walk the registry in insertion
order; an alias equal to another account email, or equal to another
account alias, is rejected. -/
def ensureAliasAvailable (a : String) (ownerEmail : String) : List AccountInfo → Option AccErr
  | [] => none
  | b :: r =>
    if a = b.email ∧ ¬ b.email = ownerEmail then some (.aliasEmailCollision a b.email)
    else if b.aliasName = some a ∧ ¬ b.email = ownerEmail then some (.aliasInUse a b.email)
    else ensureAliasAvailable a ownerEmail r

/-- AccountManager.listAccounts: registry values sorted by lastUsed
descending. -/
def listAccounts (r : List AccountInfo) : List AccountInfo :=
  r.insertionSort (fun x y => y.lastUsed ≤ x.lastUsed)

/-- AccountManager.setActiveAccount: resolve, fail when not registered,
write the active-account file, refresh the lastUsed timestamp. -/
def setActiveAccount (s : MState) (emailOrAlias : String) (now : Nat) : MState × Option AccErr :=
  let email := resolveEmailFromAlias s.registry emailOrAlias
  match lookupAccount s.registry email with
  | none => (s, some (.notFound emailOrAlias))
  | some _ =>
    let s1 := { s with active := some email }
    ({ s1 with
        registry := s1.registry.map (fun b => if b.email = email then { b with lastUsed := now } else b) },
      none)

/-- Credential file path ACCOUNTS_DIR/email.json. -/
def credPath (email : String) : String := "accounts/" ++ email ++ ".json"

/-- The unconditional tail of AccountManager.addAccount: write the
credential file, insert the registry entry, and activate when this is now
the only account. -/
def addAccountCore (s : MState) (cred : AccountCredentials) (aliasName : Option String)
    (now : Nat) : MState × Option AccErr :=
  let p := credPath cred.email
  let s1 := { s with files := writeFile s.files p cred }
  let s2 := { s1 with registry := insertAccount s1.registry ⟨cred.email, aliasName, p, now⟩ }
  if (listAccounts s2.registry).length = 1 then setActiveAccount s2 cred.email now
  else (s2, none)

/-- AccountManager.addAccount: when a (truthy) alias is supplied, check it
with ensureAliasAvailable before any write. -/
def addAccount (s : MState) (cred : AccountCredentials) (aliasName : Option String)
    (now : Nat) : MState × Option AccErr :=
  match aliasName with
  | some a =>
    if a = "" then addAccountCore s cred aliasName now
    else
      match ensureAliasAvailable a cred.email s.registry with
      | some e => (s, some e)
      | none => addAccountCore s cred aliasName now
  | none => addAccountCore s cred aliasName now

/-- AccountManager.setAlias: resolve, fail when not registered, check the
new alias with ensureAliasAvailable, then update the entry. -/
def setAlias (s : MState) (emailOrAlias : String) (newAlias : String) : MState × Option AccErr :=
  let email := resolveEmailFromAlias s.registry emailOrAlias
  match lookupAccount s.registry email with
  | none => (s, some (.notFound emailOrAlias))
  | some _ =>
    match ensureAliasAvailable newAlias email s.registry with
    | some e => (s, some e)
    | none =>
      ({ s with
          registry := s.registry.map (fun b =>
            if b.email = email then { b with aliasName := some newAlias } else b) },
        none)

/-- AccountManager.removeAccount: resolve, fail when not registered,
delete the credential file when it exists, remove the registry entry, and
clear the active pointer when it pointed at this account. -/
def removeAccount (s : MState) (emailOrAlias : String) : MState × Option AccErr :=
  let email := resolveEmailFromAlias s.registry emailOrAlias
  match lookupAccount s.registry email with
  | none => (s, some (.notFound emailOrAlias))
  | some acc =>
    let files1 := if fileExists s.files acc.credentialsPath then unlinkFile s.files acc.credentialsPath
      else s.files
    let reg1 := s.registry.filter (fun b => ¬ b.email = email)
    let act1 := if s.active = some email then none else s.active
    ({ registry := reg1, files := files1, active := act1 }, none)

/-- Shared tail of AccountManager.getCredentials once the target email is
fixed: registry lookup, credential file read, lastUsed refresh. -/
def getCredentialsFor (s : MState) (displayIdent : String) (email : String) (now : Nat) :
    MState × Except AccErr AccountCredentials :=
  match lookupAccount s.registry email with
  | none => (s, .error (.notFound displayIdent))
  | some acc =>
    match s.files.find? (fun q => q.1 == acc.credentialsPath) with
    | none => (s, .error (.credMissing email))
    | some q =>
      ({ s with
          registry := s.registry.map (fun b => if b.email = email then { b with lastUsed := now } else b) },
        .ok q.2)

/-- AccountManager.getCredentials: explicit identifier, else the active
account, else auto-activation of a sole account, else an error. -/
def getCredentials (s : MState) (identOpt : Option String) (now : Nat) :
    MState × Except AccErr AccountCredentials :=
  match identOpt with
  | some ident => getCredentialsFor s ident (resolveEmailFromAlias s.registry ident) now
  | none =>
    match s.active with
    | some a => getCredentialsFor s a a now
    | none =>
      match listAccounts s.registry with
      | [] => (s, .error .noAccounts)
      | [a] =>
        let s1 := (setActiveAccount s a.email now).1
        getCredentialsFor s1 a.email a.email now
      | _ => (s, .error .noActive)

end Icloud

namespace Gmail

/-- src/account-manager.ts AccountInfo (the Gmail OAuth variant also
records granted scopes). -/
structure AccountInfo where
  email : String
  aliasName : Option String
  credentialsPath : String
  lastUsed : Nat
  scopes : List String
  deriving DecidableEq, Repr

/-- The Gmail AccountManager state: registry, credential files (holding
the serialized token bundle), the active-account file, and the in-memory
OAuth client cache keyed by email. -/
structure MState where
  registry : List AccountInfo
  files : List (String × String)
  active : Option String
  clients : List String
  deriving DecidableEq, Repr

/-- Scopes defaulted by addAccount when none are supplied. -/
def defaultScopes : List String :=
  ["https://www.googleapis.com/auth/gmail.modify",
   "https://www.googleapis.com/auth/gmail.settings.basic"]

/-- `this.registry[email]` read access. -/
def lookupAccount (r : List AccountInfo) (email : String) : Option AccountInfo :=
  r.find? (fun a => a.email == email)

/-- `this.registry[email] = info` for the Gmail registry object. -/
def insertAccount (r : List AccountInfo) (a : AccountInfo) : List AccountInfo :=
  if (lookupAccount r a.email).isSome then r.map (fun b => if b.email = a.email then a else b)
  else r ++ [a]

/-- Gmail AccountManager.resolveEmailFromAlias, textually identical to the
iCloud variant. -/
def resolveEmailFromAlias (r : List AccountInfo) (emailOrAlias : String) : String :=
  if (lookupAccount r emailOrAlias).isSome then emailOrAlias
  else
    match r.find? (fun a => a.aliasName == some emailOrAlias) with
    | some a => a.email
    | none => emailOrAlias

/-- Gmail AccountManager.listAccounts. -/
def listAccounts (r : List AccountInfo) : List AccountInfo :=
  r.insertionSort (fun x y => y.lastUsed ≤ x.lastUsed)

/-- Gmail AccountManager.setActiveAccount. -/
def setActiveAccount (s : MState) (emailOrAlias : String) (now : Nat) : MState × Option AccErr :=
  let email := resolveEmailFromAlias s.registry emailOrAlias
  match lookupAccount s.registry email with
  | none => (s, some (.notFound emailOrAlias))
  | some _ =>
    let s1 := { s with active := some email }
    ({ s1 with
        registry := s1.registry.map (fun b => if b.email = email then { b with lastUsed := now } else b) },
      none)

/-- Credential file path for the Gmail manager. -/
def credPath (email : String) : String := "accounts/" ++ email ++ ".json"

/-- Gmail AccountManager.addAccount: NO alias check of any kind; write the
credential file, insert or overwrite the registry entry, and activate when
this is now the only account.  It never throws. -/
def addAccount (s : MState) (email : String) (credentialsJson : String)
    (aliasName : Option String) (scopes : Option (List String)) (now : Nat) : MState :=
  let p := credPath email
  let s1 := { s with files := writeFile s.files p credentialsJson }
  let s2 := { s1 with
    registry := insertAccount s1.registry ⟨email, aliasName, p, now, scopes.getD defaultScopes⟩ }
  if (listAccounts s2.registry).length = 1 then (setActiveAccount s2 email now).1 else s2

/-- Gmail AccountManager.setAlias: the collision loop checks only other
entries aliases, never other entries emails. -/
def setAlias (s : MState) (emailOrAlias : String) (newAlias : String) : MState × Option AccErr :=
  let email := resolveEmailFromAlias s.registry emailOrAlias
  match lookupAccount s.registry email with
  | none => (s, some (.notFound emailOrAlias))
  | some _ =>
    match s.registry.find? (fun b => b.aliasName == some newAlias && !(b.email == email)) with
    | some b => (s, some (.aliasInUse newAlias b.email))
    | none =>
      ({ s with
          registry := s.registry.map (fun b =>
            if b.email = email then { b with aliasName := some newAlias } else b) },
        none)

/-- Gmail AccountManager.removeAccount: also drops the cached OAuth
client for the account. -/
def removeAccount (s : MState) (emailOrAlias : String) : MState × Option AccErr :=
  let email := resolveEmailFromAlias s.registry emailOrAlias
  match lookupAccount s.registry email with
  | none => (s, some (.notFound emailOrAlias))
  | some acc =>
    let files1 := if fileExists s.files acc.credentialsPath then unlinkFile s.files acc.credentialsPath
      else s.files
    let reg1 := s.registry.filter (fun b => ¬ b.email = email)
    let clients1 := s.clients.filter (fun c => ¬ c = email)
    let act1 := if s.active = some email then none else s.active
    ({ registry := reg1, files := files1, active := act1, clients := clients1 }, none)

end Gmail

namespace Imap

/-- packages/icloud types.ts FolderInfo, as produced by listFolders. -/
structure FolderInfo where
  path : String
  name : String
  specialUse : Option String
  flags : List String
  deriving DecidableEq, Repr

/-- Character-list matching of a needle at the head of a haystack. -/
def matchesAt : List Char → List Char → Bool
  | [], _ => true
  | _ :: _, [] => false
  | c :: cs, d :: ds => c == d && matchesAt cs ds

/-- Character-list substring search. -/
def containsSub (needle : List Char) : List Char → Bool
  | [] => needle.isEmpty
  | d :: ds => matchesAt needle (d :: ds) || containsSub needle ds

/-- JavaScript String.prototype.includes. -/
def strContains (hay needle : String) : Bool :=
  containsSub needle.data hay.data

/-- ASCII lowering of a string, modelling String.prototype.toLowerCase on
the ASCII folder paths that occur here. -/
def lowerStr (s : String) : String := String.mk (s.data.map Char.toLower)

/-- The trash-folder predicate of ImapClient.deleteEmail: special-use
marker, case-insensitive path substring, or the iCloud well-known name. -/
def isTrashFolder (f : FolderInfo) : Bool :=
  (f.specialUse == some "\\Trash") || strContains (lowerStr f.path) "trash"
    || (f.path == "Deleted Messages")

/-- `folders.find(...)` over the listFolders result. -/
def findTrashFolder (folders : List FolderInfo) : Option FolderInfo :=
  folders.find? isTrashFolder

/-- JavaScript parseInt(s, 10): skip leading whitespace, optional sign,
then the longest leading run of decimal digits; NaN (none) when no digit
is found. -/
def leadingNat (cs : List Char) : Option Nat :=
  let ds := cs.takeWhile (fun c => c.isDigit)
  if ds.isEmpty then none
  else some (ds.foldl (fun acc c => acc * 10 + (c.toNat - 48)) 0)

/-- JavaScript whitespace skipped by parseInt. -/
def isJsWs (c : Char) : Bool :=
  c == ' ' || c == '\t' || c == '\n' || c == '\r'

/-- parseInt(s, 10) returning none for NaN. -/
def parseIntJS (s : String) : Option Int :=
  match s.data.dropWhile isJsWs with
  | '-' :: rest => (leadingNat rest).map (fun n => -(n : Int))
  | '+' :: rest => (leadingNat rest).map (fun n => (n : Int))
  | cs => (leadingNat cs).map (fun n => (n : Int))

/-- JavaScript array index access with a possibly negative or NaN-free
index: `arr[i]`. -/
def getAtIdx {α : Type} (l : List α) (i : Int) : Option α :=
  if i < 0 then none else l[i.toNat]?

/-- One attachment as produced by mailparser for a fetched message. -/
structure ParsedAttachment where
  contentId : Option String
  filename : Option String
  content : List Nat
  contentType : String
  deriving DecidableEq, Repr

/-- The value returned by ImapClient.downloadAttachment. -/
structure DownloadResult where
  content : List Nat
  filename : String
  mimeType : String
  deriving DecidableEq, Repr

/-- The single-pass predicate of downloadAttachment: content-id equals the
identifier, or filename equals the identifier. -/
def attMatches (partId : String) (a : ParsedAttachment) : Bool :=
  (a.contentId == some partId) || (a.filename == some partId)

/-- JavaScript `a || d` for an optional string default. -/
def jsStringOr (o : Option String) (d : String) : String :=
  match o with
  | some x => if x = "" then d else x
  | none => d

/-- The attachment-locating core of ImapClient.downloadAttachment: one
forward find over content-id-or-filename, then the positional index parsed
from the identifier, then failure (none). -/
def locateAttachment (atts : List ParsedAttachment) (partId : String) : Option DownloadResult :=
  match atts.find? (attMatches partId) with
  | some a => some ⟨a.content, jsStringOr a.filename "attachment", a.contentType⟩
  | none =>
    match parseIntJS partId with
    | none => none
    | some i =>
      match getAtIdx atts i with
      | none => none
      | some a => some ⟨a.content, jsStringOr a.filename ("attachment-" ++ toString i), a.contentType⟩

/-- Modelled from the spec wording of the three-tier identifier match,
for comparison with the code: content-id exact match first over the whole
list, else filename exact match over the whole list, else positional
index. -/
def locateAttachmentSpec (atts : List ParsedAttachment) (partId : String) : Option DownloadResult :=
  match atts.find? (fun a => a.contentId == some partId) with
  | some a => some ⟨a.content, jsStringOr a.filename "attachment", a.contentType⟩
  | none =>
    match atts.find? (fun a => a.filename == some partId) with
    | some a => some ⟨a.content, jsStringOr a.filename "attachment", a.contentType⟩
    | none =>
      match parseIntJS partId with
      | none => none
      | some i =>
        match getAtIdx atts i with
        | none => none
        | some a => some ⟨a.content, jsStringOr a.filename ("attachment-" ++ toString i), a.contentType⟩

/-- The IMAP search criteria object built by searchEmails; the `from`
field is rendered `fromAddr` because `from` is a term keyword. -/
structure SearchCriteria where
  fromAddr : Option String
  toAddr : Option String
  subject : Option String
  since : Option Nat
  before : Option Nat
  seen : Option Bool
  flagged : Option Bool
  text : Option String
  deriving DecidableEq, Repr

/-- The query handed to client.search. -/
inductive SearchQuery where
  | all
  | criteria (c : SearchCriteria)
  deriving DecidableEq, Repr

/-- Keep a string option only when truthy, as the `if (options.x)` guards
of searchEmails do when building the criteria object. -/
def keepTruthy (o : Option String) : Option String :=
  if jsTruthy o then o else none

/-- The criteria object after the conditional assignments of
searchEmails. -/
def normalizeCriteria (c : SearchCriteria) : SearchCriteria :=
  { fromAddr := keepTruthy c.fromAddr, toAddr := keepTruthy c.toAddr,
    subject := keepTruthy c.subject, since := c.since, before := c.before,
    seen := c.seen, flagged := c.flagged, text := keepTruthy c.text }

/-- `Object.keys(searchCriteria).length > 0`. -/
def hasAnyCriteria (c : SearchCriteria) : Bool :=
  jsTruthy c.fromAddr || jsTruthy c.toAddr || jsTruthy c.subject
    || c.since.isSome || c.before.isSome || c.seen.isSome || c.flagged.isSome
    || jsTruthy c.text

/-- The query construction of searchEmails: an empty criteria set becomes
the match-all query. -/
def buildQuery (c : SearchCriteria) : SearchQuery :=
  if hasAnyCriteria c then .criteria (normalizeCriteria c) else .all

/-- The all-absent criteria set. -/
def emptyCriteria : SearchCriteria :=
  ⟨none, none, none, none, none, none, none, none⟩

/-- `options.maxResults || 50`: zero and absent both fall back to the
default of 50. -/
def effectiveMax (maxResults : Option Nat) : Nat :=
  match maxResults with
  | some n => if n = 0 then 50 else n
  | none => 50

/-- `searchResult.sort((a, b) => b - a)`: a descending sort. -/
def sortDescUids (uids : List Nat) : List Nat :=
  uids.insertionSort (fun a b => b ≤ a)

/-- The UID pipeline of ImapClient.searchEmails: empty search results
return the empty list; otherwise the UID list is sorted descending and
truncated to the effective maximum BEFORE the per-message envelope fetch,
modelled by the fetchEnv callback (none models a message skipped because
its envelope is missing). -/
def searchEmails {η : Type} (uids : List Nat) (maxResults : Option Nat)
    (fetchEnv : Nat → Option η) : List (Nat × η) :=
  if uids.isEmpty then []
  else
    ((sortDescUids uids).take (effectiveMax maxResults)).filterMap
      (fun u => (fetchEnv u).map (fun e => (u, e)))

/-- Protocol commands issued by the modelled client, in order. -/
inductive ImapCmd where
  | openBox (mailbox : String)
  | listFoldersCmd
  | moveMsg (uid : String) (dest : String)
  | flagDeleted (uid : String)
  | expungeMsg (uid : String)
  | addSeen (uids : List Int)
  deriving DecidableEq, Repr

/-- The cached currently-selected mailbox of the ImapClient. -/
abbrev MailboxCache := Option String

/-- ImapClient.selectMailbox: issue a mailbox-open command exactly when
the cached mailbox differs, then record it. -/
def selectMailbox (mailbox : String) (s : MailboxCache) : List ImapCmd × MailboxCache :=
  if s = some mailbox then ([], s) else ([.openBox mailbox], some mailbox)

/-- ImapClient.markEmailsRead: select, drop invalid UIDs, raise (true)
when all were invalid, add the Seen flag.  The cached mailbox is NOT
reset. -/
def markEmailsRead (uids : List String) (folder : Option String) (s : MailboxCache) :
    List ImapCmd × MailboxCache × Bool :=
  let mailbox := folder.getD "INBOX"
  let sel := selectMailbox mailbox s
  if uids.isEmpty then (sel.1, sel.2, false)
  else
    let nums := uids.filterMap parseIntJS
    if nums.isEmpty then (sel.1, sel.2, true)
    else (sel.1 ++ [.addSeen nums], sel.2, false)

/-- ImapClient.moveEmail: select the source folder, move, and reset the
cached mailbox. -/
def moveEmail (uid : String) (sourceFolder : String) (destinationFolder : String)
    (s : MailboxCache) : List ImapCmd × MailboxCache :=
  let sel := selectMailbox sourceFolder s
  (sel.1 ++ [.moveMsg uid destinationFolder], none)

/-- ImapClient.deleteEmail: select; when permanent, flag Deleted and
expunge; otherwise list the folders, move to the first trash-like folder,
or fall back to flag-and-expunge; always reset the cached mailbox. -/
def deleteEmail (uid : String) (folder : Option String) (permanent : Bool)
    (folders : List FolderInfo) (s : MailboxCache) : List ImapCmd × MailboxCache :=
  let mailbox := folder.getD "INBOX"
  let sel := selectMailbox mailbox s
  let rest :=
    if permanent then [ImapCmd.flagDeleted uid, ImapCmd.expungeMsg uid]
    else
      ImapCmd.listFoldersCmd ::
        (match findTrashFolder folders with
          | some f => [ImapCmd.moveMsg uid f.path]
          | none => [ImapCmd.flagDeleted uid, ImapCmd.expungeMsg uid])
  (sel.1 ++ rest, none)

/-- Count of mailbox-open commands in a trace. -/
def countOpens (t : List ImapCmd) : Nat :=
  t.countP (fun c => match c with | .openBox _ => true | _ => false)

end Imap

/-- The generic batch helper processBatches of the Gmail server: the input
is cut into consecutive chunks of batchSize; a chunk is attempted whole,
and on failure every item of that chunk is retried individually; outcomes
are a success list and a per-item failure list.  The JavaScript loop does
not terminate for batchSize zero (the handlers guard this with
`batchSize || 50`); this definition is stated for any batchSize but the
theorems about it assume it positive. -/
def chunksOf {α : Type} (b : Nat) : List α → List (List α)
  | [] => []
  | a :: l => (a :: l.take (b - 1)) :: chunksOf b (l.drop (b - 1))
termination_by l => l.length
decreasing_by simp [List.length_drop]; omega

/-- The individual retry pass over a failed chunk. -/
def retryChunkItems {α β ε : Type} (f : List α → Except ε (List β)) (chunk : List α) :
    List β × List (α × ε) :=
  chunk.foldr
    (fun it acc =>
      match f [it] with
      | .ok rs => (rs ++ acc.1, acc.2)
      | .error e => (acc.1, (it, e) :: acc.2))
    ([], [])

/-- One chunk of processBatches: whole-chunk call first, individual
retries on failure. -/
def processChunk {α β ε : Type} (f : List α → Except ε (List β)) (chunk : List α) :
    List β × List (α × ε) :=
  match f chunk with
  | .ok rs => (rs, [])
  | .error _ => retryChunkItems f chunk

/-- processBatches itself: fold the chunk processor over the chunks,
concatenating successes and failures in order. -/
def processBatches {α β ε : Type} (f : List α → Except ε (List β)) (b : Nat)
    (items : List α) : List β × List (α × ε) :=
  (chunksOf b items).foldr
    (fun chunk acc =>
      let r := processChunk f chunk
      (r.1 ++ acc.1, r.2 ++ acc.2))
    ([], [])

/-! Sequences of registry-mutating calls, for the alias-uniqueness
invariant. -/

/-- One registry-mutating call of the iCloud manager, as the invariant
quantifies over addAccount and setAlias sequences. -/
inductive AccountOp where
  | add (cred : Icloud.AccountCredentials) (aliasName : Option String) (now : Nat)
  | setAliasOp (emailOrAlias : String) (newAlias : String)
  deriving DecidableEq, Repr

/-- Apply one call; a thrown error is reported to the caller by the
server and leaves the state as the call returned it. -/
def applyOp (s : Icloud.MState) : AccountOp → Icloud.MState
  | .add cred al now => (Icloud.addAccount s cred al now).1
  | .setAliasOp i a => (Icloud.setAlias s i a).1

/-- Run a call sequence from a starting state. -/
def runOps : List AccountOp → Icloud.MState → Icloud.MState
  | [], s => s
  | op :: ops, s => runOps ops (applyOp s op)

/-- The state of a fresh installation: empty registry, no credential
files, no active account. -/
def emptyState : Icloud.MState := ⟨[], [], none⟩

/-- The non-empty alias of an entry, when it has one. -/
def neAlias (o : Option String) : Option String :=
  match o with
  | some x => if x = "" then none else some x
  | none => none

/-- No two registry entries share a non-empty alias (iCloud registry).
Entries are distinguished by their email key. -/
def AliasUniqueI (r : List Icloud.AccountInfo) : Prop :=
  ∀ a ∈ r, ∀ b ∈ r, a.email ≠ b.email →
    neAlias a.aliasName = none ∨ neAlias a.aliasName ≠ neAlias b.aliasName

/-- No entry carries an alias equal to a different account email (iCloud
registry). -/
def AliasDistinctFromEmailsI (r : List Icloud.AccountInfo) : Prop :=
  ∀ a ∈ r, ∀ b ∈ r, a.email ≠ b.email → a.aliasName ≠ some b.email

/-- No two registry entries share a non-empty alias (Gmail registry). -/
def AliasUniqueG (r : List Gmail.AccountInfo) : Prop :=
  ∀ a ∈ r, ∀ b ∈ r, a.email ≠ b.email →
    neAlias a.aliasName = none ∨ neAlias a.aliasName ≠ neAlias b.aliasName

/-- Gmail manager run: two addAccount calls carrying the same alias; the
Gmail addAccount performs no alias check. -/
def gmailAliasRun : Gmail.MState :=
  Gmail.addAccount
    (Gmail.addAccount ⟨[], [], none, []⟩ "alice@gmail.com" "tokensA" (some "work") none 0)
    "bob@gmail.com" "tokensB" (some "work") none 1

/-- iCloud manager run: an account whose alias is a string that a later
addAccount then registers as an email; ensureAliasAvailable never checks
new emails against existing aliases. -/
def icloudAliasRun : Icloud.MState :=
  (Icloud.addAccount
    (Icloud.addAccount emptyState ⟨"alice@icloud.com", "pwA"⟩ (some "bob@icloud.com") 0).1
    ⟨"bob@icloud.com", "pwB"⟩ none 1).1

/-! Lemmas about the iCloud registry primitives. -/

theorem lookupAccount_eq_none_iff {r : List Icloud.AccountInfo} {e : String} :
    Icloud.lookupAccount r e = none ↔ ∀ b ∈ r, b.email ≠ e := by
  simp [Icloud.lookupAccount, List.find?_eq_none]

theorem neAlias_eq_some {o : Option String} {x : String} :
    neAlias o = some x ↔ o = some x ∧ x ≠ "" := by
  cases o with
  | none => simp [neAlias]
  | some y =>
    by_cases hy : y = ""
    · subst hy
      simp only [neAlias, if_pos rfl]
      constructor
      · intro h; cases h
      · rintro ⟨h1, h2⟩; exact absurd (Option.some_inj.mp h1).symm h2
    · simp only [neAlias, if_neg hy]
      constructor
      · intro h; exact ⟨h, fun hc => hy ((Option.some_inj.mp h).trans hc)⟩
      · intro h; exact h.1

theorem ensureAliasAvailable_eq_none {a owner : String} :
    ∀ {r : List Icloud.AccountInfo}, Icloud.ensureAliasAvailable a owner r = none →
      ∀ b ∈ r, b.email ≠ owner → a ≠ b.email ∧ b.aliasName ≠ some a := by
  intro r
  induction r with
  | nil => intro _ b hb; cases hb
  | cons c r ih =>
    intro h b hb hbo
    rw [Icloud.ensureAliasAvailable] at h
    split at h
    · cases h
    · split at h
      · cases h
      · rcases List.mem_cons.mp hb with rfl | hb
        · constructor
          · intro hac
            rename_i h1 _
            exact h1 ⟨hac, hbo⟩
          · intro hal
            rename_i h1 h2
            exact h2 ⟨hal, hbo⟩
        · exact ih h b hb hbo

theorem mem_insertAccount {r : List Icloud.AccountInfo} {a x : Icloud.AccountInfo}
    (hx : x ∈ Icloud.insertAccount r a) : x = a ∨ (x ∈ r ∧ x.email ≠ a.email) := by
  rw [Icloud.insertAccount] at hx
  split at hx
  · rcases List.mem_map.mp hx with ⟨b, hb, rfl⟩
    by_cases hbe : b.email = a.email
    · left; simp [hbe]
    · right
      refine ⟨by simp only [if_neg hbe]; exact hb, ?_⟩
      simp only [if_neg hbe]
      exact hbe
  · rename_i hno
    rcases List.mem_append.mp hx with hx | hx
    · right
      refine ⟨hx, ?_⟩
      have : Icloud.lookupAccount r a.email = none := by
        cases hfind : Icloud.lookupAccount r a.email with
        | none => rfl
        | some v => exact absurd (by simp [hfind]) hno
      exact (lookupAccount_eq_none_iff.mp this) x hx
    · left; simpa using hx

theorem aliasUnique_insert {r : List Icloud.AccountInfo} {a : Icloud.AccountInfo}
    (h : AliasUniqueI r)
    (hcompat : ∀ b ∈ r, b.email ≠ a.email →
      neAlias a.aliasName = none ∨ neAlias b.aliasName ≠ neAlias a.aliasName) :
    AliasUniqueI (Icloud.insertAccount r a) := by
  intro x hx y hy hne
  rcases mem_insertAccount hx with hxa | ⟨hxr, hxe⟩
  · rcases mem_insertAccount hy with hya | ⟨hyr, hye⟩
    · subst hxa; subst hya; exact absurd rfl hne
    · subst hxa
      rcases hcompat y hyr (by simpa using hye) with hc | hc
      · exact Or.inl hc
      · exact Or.inr (Ne.symm hc)
  · rcases mem_insertAccount hy with hya | ⟨hyr, _⟩
    · subst hya
      rcases hcompat x hxr hxe with hc | hc
      · by_cases hxn : neAlias x.aliasName = none
        · exact Or.inl hxn
        · exact Or.inr (by rw [hc]; exact hxn)
      · exact Or.inr hc
    · exact h x hxr y hyr hne

theorem aliasUnique_map_keep {r : List Icloud.AccountInfo} {g : Icloud.AccountInfo → Icloud.AccountInfo}
    (he : ∀ b, (g b).email = b.email) (ha : ∀ b, (g b).aliasName = b.aliasName)
    (h : AliasUniqueI r) : AliasUniqueI (r.map g) := by
  intro x hx y hy hne
  rcases List.mem_map.mp hx with ⟨x0, hx0, rfl⟩
  rcases List.mem_map.mp hy with ⟨y0, hy0, rfl⟩
  rw [he, he] at hne
  rw [ha, ha]
  exact h x0 hx0 y0 hy0 hne

theorem aliasUnique_setActive {s : Icloud.MState} {e : String} {now : Nat}
    (h : AliasUniqueI s.registry) :
    AliasUniqueI (Icloud.setActiveAccount s e now).1.registry := by
  rw [Icloud.setActiveAccount]
  cases hl : Icloud.lookupAccount s.registry (Icloud.resolveEmailFromAlias s.registry e) with
  | none => simpa using h
  | some v =>
    simp only
    exact aliasUnique_map_keep (fun b => by split <;> rfl) (fun b => by split <;> rfl) h

theorem aliasUnique_addAccountCore {s : Icloud.MState} {cred : Icloud.AccountCredentials}
    {al : Option String} {now : Nat}
    (h : AliasUniqueI s.registry)
    (hcompat : ∀ b ∈ s.registry, b.email ≠ cred.email →
      neAlias al = none ∨ neAlias b.aliasName ≠ neAlias al) :
    AliasUniqueI (Icloud.addAccountCore s cred al now).1.registry := by
  have hins : AliasUniqueI (Icloud.insertAccount s.registry
      ⟨cred.email, al, Icloud.credPath cred.email, now⟩) :=
    aliasUnique_insert h (by intro b hb hbe; exact hcompat b hb hbe)
  rw [Icloud.addAccountCore]
  dsimp only
  split
  · exact aliasUnique_setActive hins
  · exact hins

/-- An alias cleared by ensureAliasAvailable differs, as a non-empty
alias, from every other entry alias. -/
theorem neAlias_of_ensure {r : List Icloud.AccountInfo} {na owner : String}
    (hna : na ≠ "")
    (hens : Icloud.ensureAliasAvailable na owner r = none)
    {b : Icloud.AccountInfo} (hb : b ∈ r) (hbo : b.email ≠ owner) :
    neAlias b.aliasName ≠ neAlias (some na) := by
  intro hcontra
  have hrhs : neAlias (some na) = some na := by simp [neAlias, hna]
  rw [hrhs] at hcontra
  have := (neAlias_eq_some.mp hcontra).1
  exact (ensureAliasAvailable_eq_none hens b hb hbo).2 this

theorem aliasUnique_addAccount {s : Icloud.MState} {cred : Icloud.AccountCredentials}
    {al : Option String} {now : Nat} (h : AliasUniqueI s.registry) :
    AliasUniqueI (Icloud.addAccount s cred al now).1.registry := by
  cases al with
  | none =>
    show AliasUniqueI (Icloud.addAccountCore s cred none now).1.registry
    exact aliasUnique_addAccountCore h (by intro b _ _; left; rfl)
  | some a =>
    by_cases ha : a = ""
    · subst ha
      show AliasUniqueI (Icloud.addAccountCore s cred (some "") now).1.registry
      exact aliasUnique_addAccountCore h (by intro b _ _; left; simp [neAlias])
    · have hbody : Icloud.addAccount s cred (some a) now =
          match Icloud.ensureAliasAvailable a cred.email s.registry with
          | some e => (s, some e)
          | none => Icloud.addAccountCore s cred (some a) now := by
        show (if a = "" then _ else _) = _
        rw [if_neg ha]
      rw [hbody]
      cases hens : Icloud.ensureAliasAvailable a cred.email s.registry with
      | some e => exact h
      | none =>
        refine aliasUnique_addAccountCore h ?_
        intro b hb hbe
        exact Or.inr (neAlias_of_ensure ha hens hb hbe)

theorem aliasUnique_setAlias {s : Icloud.MState} {i na : String}
    (h : AliasUniqueI s.registry) :
    AliasUniqueI (Icloud.setAlias s i na).1.registry := by
  rw [Icloud.setAlias]
  cases hl : Icloud.lookupAccount s.registry (Icloud.resolveEmailFromAlias s.registry i) with
  | none => exact h
  | some v =>
    dsimp only
    cases hens : Icloud.ensureAliasAvailable na (Icloud.resolveEmailFromAlias s.registry i)
        s.registry with
    | some e => exact h
    | none =>
      dsimp only
      generalize hgen : Icloud.resolveEmailFromAlias s.registry i = em at hens
      intro x hx y hy hne
      rcases List.mem_map.mp hx with ⟨x0, hx0, rfl⟩
      rcases List.mem_map.mp hy with ⟨y0, hy0, rfl⟩
      have hgem : ∀ b : Icloud.AccountInfo,
          ((if b.email = em then { b with aliasName := some na } else b) :
            Icloud.AccountInfo).email = b.email := by
        intro b; split <;> rfl
      rw [hgem, hgem] at hne
      by_cases hxm : x0.email = em
      · have hym : ¬ y0.email = em := fun hc => hne (by rw [hxm, hc])
        simp only [if_pos hxm, if_neg hym]
        by_cases hna : na = ""
        · subst hna; left; simp [neAlias]
        · exact Or.inr (Ne.symm (neAlias_of_ensure hna hens hy0 hym))
      · by_cases hym : y0.email = em
        · simp only [if_neg hxm, if_pos hym]
          by_cases hna : na = ""
          · subst hna
            by_cases hxn : neAlias x0.aliasName = none
            · exact Or.inl hxn
            · right
              simp only [neAlias, if_pos rfl]
              exact hxn
          · exact Or.inr (neAlias_of_ensure hna hens hx0 hxm)
        · simp only [if_neg hxm, if_neg hym]
          exact h x0 hx0 y0 hy0 hne

/-- C1, counterexample.  The claimed invariant fails on both managers:
the Gmail addAccount performs no alias check at all, so two addAccount
calls with the same alias leave two registry entries sharing the
non-empty alias "work"; and the iCloud ensureAliasAvailable never checks
a NEW email against EXISTING aliases, so registering the email that an
earlier account already uses as its alias leaves an alias equal to a
different account primary email. -/
theorem alias_uniqueness_cex :
    ¬ AliasUniqueG gmailAliasRun.registry ∧
      ¬ AliasDistinctFromEmailsI icloudAliasRun.registry := by
  constructor
  · unfold AliasUniqueG
    decide
  · unfold AliasDistinctFromEmailsI
    decide

/-- C1, amended.  Restricted to the iCloud account manager, whose
addAccount and setAlias run ensureAliasAvailable: for every sequence of
addAccount and setAlias calls starting from an empty registry, at no
point do two registry entries share a non-empty alias.  (As the
counterexample shows, the Gmail addAccount enforces nothing, and neither
manager prevents a later addAccount from registering an email equal to an
existing alias, so the alias-versus-other-email half does not hold.) -/
theorem alias_uniqueness_icloud (ops : List AccountOp) :
    AliasUniqueI (runOps ops emptyState).registry := by
  have key : ∀ (l : List AccountOp) (s : Icloud.MState),
      AliasUniqueI s.registry → AliasUniqueI (runOps l s).registry := by
    intro l
    induction l with
    | nil => intro s h; exact h
    | cons op l ih =>
      intro s h
      rw [runOps]
      refine ih _ ?_
      cases op with
      | add cred al now => exact aliasUnique_addAccount h
      | setAliasOp i a => exact aliasUnique_setAlias h
  refine key ops emptyState ?_
  intro a ha
  cases ha

/-! Lemmas about lookup, insertion, and activation, used for resolution
and auto-activation. -/

theorem lookup_mem {r : List Icloud.AccountInfo} {e : String} {v : Icloud.AccountInfo}
    (h : Icloud.lookupAccount r e = some v) : v ∈ r ∧ v.email = e := by
  refine ⟨List.mem_of_find?_eq_some h, ?_⟩
  have := List.find?_some h
  simpa using this

theorem lookup_map_replace {a : Icloud.AccountInfo} :
    ∀ {r : List Icloud.AccountInfo}, (Icloud.lookupAccount r a.email).isSome = true →
      (r.map (fun b => if b.email = a.email then a else b)).find?
        (fun x => x.email == a.email) = some a := by
  intro r
  induction r with
  | nil => intro h; simp [Icloud.lookupAccount] at h
  | cons c r ih =>
    intro h
    by_cases hc : c.email = a.email
    · simp only [List.map_cons, if_pos hc]
      rw [List.find?_cons_of_pos _ (by simp)]
    · simp only [List.map_cons, if_neg hc]
      rw [List.find?_cons_of_neg _ (by simp [hc])]
      apply ih
      rw [Icloud.lookupAccount, List.find?_cons_of_neg _ (by simp [hc])] at h
      exact h

theorem lookup_append_new {a : Icloud.AccountInfo} :
    ∀ {r : List Icloud.AccountInfo}, Icloud.lookupAccount r a.email = none →
      (r ++ [a]).find? (fun x => x.email == a.email) = some a := by
  intro r
  induction r with
  | nil => intro _; simp
  | cons c r ih =>
    intro h
    have hall := lookupAccount_eq_none_iff.mp h
    have hcr : Icloud.lookupAccount r a.email = none :=
      lookupAccount_eq_none_iff.mpr (fun b hb => hall b (List.mem_cons_of_mem _ hb))
    have hc : c.email ≠ a.email := hall c (List.mem_cons_self _ _)
    rw [List.cons_append, List.find?_cons_of_neg _ (by simp [hc])]
    exact ih hcr

theorem lookup_insert_self {r : List Icloud.AccountInfo} {a : Icloud.AccountInfo} :
    Icloud.lookupAccount (Icloud.insertAccount r a) a.email = some a := by
  rw [Icloud.insertAccount]
  split
  · exact lookup_map_replace (by assumption)
  · rename_i h
    apply lookup_append_new
    cases hl : Icloud.lookupAccount r a.email with
    | none => rfl
    | some v => exact absurd (by simp [hl]) h

theorem mem_insertAccount_of_ne {r : List Icloud.AccountInfo} {a x : Icloud.AccountInfo}
    (hx : x ∈ r) (hne : x.email ≠ a.email) : x ∈ Icloud.insertAccount r a := by
  rw [Icloud.insertAccount]
  split
  · exact List.mem_map.mpr ⟨x, hx, by rw [if_neg hne]⟩
  · exact List.mem_append.mpr (Or.inl hx)

theorem length_insertAccount {r : List Icloud.AccountInfo} {a : Icloud.AccountInfo} :
    (Icloud.insertAccount r a).length =
      if (Icloud.lookupAccount r a.email).isSome then r.length else r.length + 1 := by
  rw [Icloud.insertAccount]
  split
  · simp
  · simp

theorem listAccounts_length {r : List Icloud.AccountInfo} :
    (Icloud.listAccounts r).length = r.length :=
  (List.perm_insertionSort _ r).length_eq

theorem two_mem_le_length {α : Type} {l : List α} {x y : α}
    (hx : x ∈ l) (hy : y ∈ l) (hne : x ≠ y) : 2 ≤ l.length := by
  cases l with
  | nil => cases hx
  | cons a t =>
    rcases List.mem_cons.mp hx with rfl | hx
    · rcases List.mem_cons.mp hy with rfl | hy
      · exact absurd rfl hne
      · have : 0 < t.length := List.length_pos.mpr (List.ne_nil_of_mem hy)
        simp only [List.length_cons]
        omega
    · have : 0 < t.length := List.length_pos.mpr (List.ne_nil_of_mem hx)
      simp only [List.length_cons]
      omega

theorem resolve_of_present {r : List Icloud.AccountInfo} {e : String}
    (h : (Icloud.lookupAccount r e).isSome = true) :
    Icloud.resolveEmailFromAlias r e = e := by
  rw [Icloud.resolveEmailFromAlias, if_pos h]

theorem setActive_of_present {s : Icloud.MState} {e : String} {now : Nat}
    (h : (Icloud.lookupAccount s.registry e).isSome = true) :
    (Icloud.setActiveAccount s e now).1.active = some e ∧
      (Icloud.setActiveAccount s e now).2 = none := by
  rw [Icloud.setActiveAccount, resolve_of_present h]
  obtain ⟨v, hv⟩ := Option.isSome_iff_exists.mp h
  rw [hv]
  exact ⟨rfl, rfl⟩

theorem addAccountCore_active_empty {cred : Icloud.AccountCredentials}
    {al : Option String} {now : Nat} :
    (Icloud.addAccountCore emptyState cred al now).1.active = some cred.email ∧
      (Icloud.addAccountCore emptyState cred al now).2 = none := by
  rw [Icloud.addAccountCore]
  dsimp only
  have hreg : Icloud.insertAccount emptyState.registry
      ⟨cred.email, al, Icloud.credPath cred.email, now⟩ =
      [⟨cred.email, al, Icloud.credPath cred.email, now⟩] := by
    rw [Icloud.insertAccount]
    simp [Icloud.lookupAccount, emptyState]
  rw [hreg]
  have hlen : (Icloud.listAccounts
      [(⟨cred.email, al, Icloud.credPath cred.email, now⟩ : Icloud.AccountInfo)]).length = 1 :=
    listAccounts_length
  rw [if_pos hlen]
  apply setActive_of_present
  have : Icloud.lookupAccount
      [(⟨cred.email, al, Icloud.credPath cred.email, now⟩ : Icloud.AccountInfo)] cred.email =
      some ⟨cred.email, al, Icloud.credPath cred.email, now⟩ := by
    rw [Icloud.lookupAccount]
    exact List.find?_cons_of_pos _ (by simp)
  simp [this]

/-- C5: auto-activation.  From zero accounts, addAccount(A) leaves the
active pointer at the email of A, without error; and when an account is
registered and active, a further addAccount leaves the active pointer
untouched (whether the call succeeds, overwrites the same account, or
fails on an alias collision). -/
theorem auto_activation :
    (∀ (cred : Icloud.AccountCredentials) (al : Option String) (now : Nat),
        (Icloud.addAccount emptyState cred al now).1.active = some cred.email ∧
          (Icloud.addAccount emptyState cred al now).2 = none) ∧
    (∀ (s : Icloud.MState) (aEmail : String) (cred : Icloud.AccountCredentials)
        (al : Option String) (now : Nat),
        (Icloud.lookupAccount s.registry aEmail).isSome = true →
        s.active = some aEmail →
        (Icloud.addAccount s cred al now).1.active = some aEmail) := by
  constructor
  · intro cred al now
    cases al with
    | none => exact addAccountCore_active_empty
    | some a =>
      have heq : Icloud.addAccount emptyState cred (some a) now =
          Icloud.addAccountCore emptyState cred (some a) now := by
        simp only [Icloud.addAccount]
        split
        · rfl
        · rfl
      rw [heq]
      exact addAccountCore_active_empty
  · intro s aEmail cred al now hreg hact
    have hcore : (Icloud.addAccountCore s cred al now).1.active = some aEmail := by
      rw [Icloud.addAccountCore]
      dsimp only
      split
      · rename_i hlen
        rw [listAccounts_length] at hlen
        by_cases hce : cred.email = aEmail
        · rw [← hce]
          refine (setActive_of_present ?_).1
          show (Icloud.lookupAccount (Icloud.insertAccount s.registry
              ⟨cred.email, al, Icloud.credPath cred.email, now⟩) cred.email).isSome = true
          rw [show cred.email =
              (⟨cred.email, al, Icloud.credPath cred.email, now⟩ : Icloud.AccountInfo).email
              from rfl, lookup_insert_self]
          rfl
        · exfalso
          obtain ⟨v, hv⟩ := Option.isSome_iff_exists.mp hreg
          obtain ⟨hvm, hve⟩ := lookup_mem hv
          have hvins : v ∈ Icloud.insertAccount s.registry
              ⟨cred.email, al, Icloud.credPath cred.email, now⟩ :=
            mem_insertAccount_of_ne hvm (by rw [hve]; exact fun hc => hce hc.symm)
          have hnins : (⟨cred.email, al, Icloud.credPath cred.email, now⟩ : Icloud.AccountInfo) ∈
              Icloud.insertAccount s.registry ⟨cred.email, al, Icloud.credPath cred.email, now⟩ :=
            (lookup_mem lookup_insert_self).1
          have hne : v ≠ ⟨cred.email, al, Icloud.credPath cred.email, now⟩ := by
            intro hc
            rw [hc] at hve
            exact hce hve
          have := two_mem_le_length hvins hnins hne
          omega
      · exact hact
    cases al with
    | none => exact hcore
    | some a =>
      simp only [Icloud.addAccount]
      split
      · exact hcore
      · cases hens : Icloud.ensureAliasAvailable a cred.email s.registry with
        | some e => exact hact
        | none => exact hcore

/-- A registry with one aliased account and one alias-free account, plus
the matching files and active pointer, used to instantiate theorems. -/
def demoRegistry : List Icloud.AccountInfo :=
  [⟨"alice@icloud.com", some "work", "accounts/alice@icloud.com.json", 3⟩,
   ⟨"bob@icloud.com", none, "accounts/bob@icloud.com.json", 1⟩]

/-- A demo manager state over demoRegistry with alice active. -/
def demoState : Icloud.MState :=
  ⟨demoRegistry,
   [("accounts/alice@icloud.com.json", ⟨"alice@icloud.com", "pwA"⟩),
    ("accounts/bob@icloud.com.json", ⟨"bob@icloud.com", "pwB"⟩)],
   some "alice@icloud.com"⟩

/-- C5 witness: concrete instantiation of the second auto-activation
conjunct at demoState. -/
theorem auto_activation_witness :
    (Icloud.lookupAccount demoState.registry "alice@icloud.com").isSome = true ∧
      demoState.active = some "alice@icloud.com" ∧
      (Icloud.addAccount demoState ⟨"carol@icloud.com", "pwC"⟩ none 9).1.active =
        some "alice@icloud.com" :=
  ⟨by decide, rfl,
    auto_activation.2 demoState "alice@icloud.com" ⟨"carol@icloud.com", "pwC"⟩ none 9
      (by decide) rfl⟩

/-- C4: account resolution.  A registered primary email resolves to
itself regardless of alias state; otherwise an exact alias match resolves
to the email of the matching entry; otherwise the identifier passes
through unchanged, and the failure is deferred: getCredentials with such
an identifier reports the not-found error, with the state untouched.  The
Gmail resolveEmailFromAlias behaves identically on its own registry
(first conjunct repeated for it). -/
theorem account_resolution :
    (∀ (r : List Icloud.AccountInfo) (ident : String),
        (Icloud.lookupAccount r ident).isSome = true →
        Icloud.resolveEmailFromAlias r ident = ident) ∧
    (∀ (r : List Icloud.AccountInfo) (ident : String) (b : Icloud.AccountInfo),
        Icloud.lookupAccount r ident = none →
        r.find? (fun a => a.aliasName == some ident) = some b →
        Icloud.resolveEmailFromAlias r ident = b.email) ∧
    (∀ (r : List Icloud.AccountInfo) (ident : String),
        Icloud.lookupAccount r ident = none →
        r.find? (fun a => a.aliasName == some ident) = none →
        Icloud.resolveEmailFromAlias r ident = ident) ∧
    (∀ (r : List Gmail.AccountInfo) (ident : String),
        (Gmail.lookupAccount r ident).isSome = true →
        Gmail.resolveEmailFromAlias r ident = ident) ∧
    (∀ (s : Icloud.MState) (ident : String) (now : Nat),
        Icloud.lookupAccount s.registry ident = none →
        s.registry.find? (fun a => a.aliasName == some ident) = none →
        Icloud.getCredentials s (some ident) now = (s, .error (.notFound ident))) := by
  refine ⟨?_, ?_, ?_, ?_, ?_⟩
  · intro r ident h
    rw [Icloud.resolveEmailFromAlias, if_pos h]
  · intro r ident b h hf
    rw [Icloud.resolveEmailFromAlias, if_neg (by simp [h]), hf]
  · intro r ident h hf
    rw [Icloud.resolveEmailFromAlias, if_neg (by simp [h]), hf]
  · intro r ident h
    rw [Gmail.resolveEmailFromAlias, if_pos h]
  · intro s ident now h hf
    rw [Icloud.getCredentials]
    have hres : Icloud.resolveEmailFromAlias s.registry ident = ident := by
      rw [Icloud.resolveEmailFromAlias, if_neg (by simp [h]), hf]
    rw [hres, Icloud.getCredentialsFor, h]

/-- C4 witness: resolution at a concrete registry for all three tiers,
and the deferred not-found error of getCredentials. -/
theorem account_resolution_witness :
    Icloud.resolveEmailFromAlias demoRegistry "alice@icloud.com" = "alice@icloud.com" ∧
      Icloud.resolveEmailFromAlias demoRegistry "work" = "alice@icloud.com" ∧
      Icloud.resolveEmailFromAlias demoRegistry "carol" = "carol" ∧
      Icloud.getCredentials demoState (some "carol") 7 =
        (demoState, .error (.notFound "carol")) :=
  ⟨account_resolution.1 demoRegistry "alice@icloud.com" (by decide),
    account_resolution.2.1 demoRegistry "work"
      ⟨"alice@icloud.com", some "work", "accounts/alice@icloud.com.json", 3⟩
      (by decide) (by decide),
    account_resolution.2.2.1 demoRegistry "carol" (by decide) (by decide),
    account_resolution.2.2.2.2 demoState "carol" 7 (by decide) (by decide)⟩

theorem setActive_err_cases {s : Icloud.MState} {e : String} {now : Nat} {er : AccErr}
    (h : (Icloud.setActiveAccount s e now).2 = some er) : er = .notFound e := by
  rw [Icloud.setActiveAccount] at h
  split at h
  · exact (Option.some_inj.mp h).symm
  · cases h

theorem addAccountCore_err {s : Icloud.MState} {cred : Icloud.AccountCredentials}
    {al : Option String} {now : Nat} {e : AccErr}
    (h : (Icloud.addAccountCore s cred al now).2 = some e) : e = .notFound cred.email := by
  rw [Icloud.addAccountCore] at h
  dsimp only at h
  split at h
  · exact setActive_err_cases h
  · cases h

/-- C8: collision atomicity.  Whenever the iCloud addAccount, the iCloud
setAlias, or the Gmail setAlias reports an alias-collision error, the
returned state (registry, credential files, active pointer, client cache)
is exactly the input state: the collision check runs before any write.
(The Gmail addAccount never raises a collision, so it is covered
vacuously and omitted.) -/
theorem collision_atomicity :
    (∀ (s : Icloud.MState) (cred : Icloud.AccountCredentials) (al : Option String)
        (now : Nat) (e : AccErr),
        (Icloud.addAccount s cred al now).2 = some e → e.isCollision = true →
        (Icloud.addAccount s cred al now).1 = s) ∧
    (∀ (s : Icloud.MState) (i na : String) (e : AccErr),
        (Icloud.setAlias s i na).2 = some e → e.isCollision = true →
        (Icloud.setAlias s i na).1 = s) ∧
    (∀ (s : Gmail.MState) (i na : String) (e : AccErr),
        (Gmail.setAlias s i na).2 = some e → e.isCollision = true →
        (Gmail.setAlias s i na).1 = s) := by
  refine ⟨?_, ?_, ?_⟩
  · intro s cred al now e h hc
    cases al with
    | none =>
      rw [addAccountCore_err h] at hc
      cases hc
    | some a =>
      by_cases ha : a = ""
      · subst ha
        rw [addAccountCore_err h] at hc
        cases hc
      · have heq : Icloud.addAccount s cred (some a) now =
            match Icloud.ensureAliasAvailable a cred.email s.registry with
            | some e0 => (s, some e0)
            | none => Icloud.addAccountCore s cred (some a) now := by
          simp only [Icloud.addAccount, if_neg ha]
        rw [heq] at h ⊢
        cases hens : Icloud.ensureAliasAvailable a cred.email s.registry with
        | some e0 => rfl
        | none =>
          rw [hens] at h
          rw [addAccountCore_err h] at hc
          cases hc
  · intro s i na e h _
    rw [Icloud.setAlias] at h ⊢
    cases hl : Icloud.lookupAccount s.registry (Icloud.resolveEmailFromAlias s.registry i) with
    | none => rfl
    | some v =>
      rw [hl] at h
      dsimp only at h ⊢
      cases hens : Icloud.ensureAliasAvailable na (Icloud.resolveEmailFromAlias s.registry i)
          s.registry with
      | some e0 => rfl
      | none =>
        rw [hens] at h
        cases h
  · intro s i na e h _
    rw [Gmail.setAlias] at h ⊢
    cases hl : Gmail.lookupAccount s.registry (Gmail.resolveEmailFromAlias s.registry i) with
    | none => rfl
    | some v =>
      rw [hl] at h
      dsimp only at h ⊢
      cases hf : s.registry.find?
          (fun b => b.aliasName == some na &&
            !(b.email == Gmail.resolveEmailFromAlias s.registry i)) with
      | some b => rfl
      | none =>
        rw [hf] at h
        cases h

/-- C8 witness: a concrete alias collision on addAccount, rejected with
the state returned untouched. -/
theorem collision_atomicity_witness :
    (Icloud.addAccount demoState ⟨"carol@icloud.com", "pwC"⟩ (some "work") 9).2 =
        some (.aliasInUse "work" "alice@icloud.com") ∧
      AccErr.isCollision (.aliasInUse "work" "alice@icloud.com") = true ∧
      (Icloud.addAccount demoState ⟨"carol@icloud.com", "pwC"⟩ (some "work") 9).1 = demoState :=
  ⟨by decide, rfl,
    collision_atomicity.1 demoState ⟨"carol@icloud.com", "pwC"⟩ (some "work") 9
      (.aliasInUse "work" "alice@icloud.com") (by decide) rfl⟩

theorem lookupAccountG_eq_none_iff {r : List Gmail.AccountInfo} {e : String} :
    Gmail.lookupAccount r e = none ↔ ∀ b ∈ r, b.email ≠ e := by
  simp [Gmail.lookupAccount, List.find?_eq_none]

theorem resolve_of_presentG {r : List Gmail.AccountInfo} {e : String}
    (h : (Gmail.lookupAccount r e).isSome = true) :
    Gmail.resolveEmailFromAlias r e = e := by
  rw [Gmail.resolveEmailFromAlias, if_pos h]

/-- C10: removeAccount on a registered account whose credential file is
already gone from disk still succeeds: no error, the registry entry is
removed, the file system is untouched, and the active pointer is cleared
exactly when it pointed at this account.  Both managers behave this way;
the Gmail variant also drops its cached client. -/
theorem remove_account_missing_file :
    (∀ (s : Icloud.MState) (email : String) (acc : Icloud.AccountInfo),
        Icloud.lookupAccount s.registry email = some acc →
        fileExists s.files acc.credentialsPath = false →
        (Icloud.removeAccount s email).2 = none ∧
          Icloud.lookupAccount (Icloud.removeAccount s email).1.registry email = none ∧
          (Icloud.removeAccount s email).1.files = s.files ∧
          (Icloud.removeAccount s email).1.active =
            (if s.active = some email then none else s.active)) ∧
    (∀ (s : Gmail.MState) (email : String) (acc : Gmail.AccountInfo),
        Gmail.lookupAccount s.registry email = some acc →
        fileExists s.files acc.credentialsPath = false →
        (Gmail.removeAccount s email).2 = none ∧
          Gmail.lookupAccount (Gmail.removeAccount s email).1.registry email = none ∧
          (Gmail.removeAccount s email).1.files = s.files ∧
          (Gmail.removeAccount s email).1.active =
            (if s.active = some email then none else s.active)) := by
  constructor
  · intro s email acc hl hfe
    have hres : Icloud.resolveEmailFromAlias s.registry email = email :=
      resolve_of_present (by simp [hl])
    rw [Icloud.removeAccount, hres, hl]
    dsimp only
    refine ⟨rfl, ?_, ?_, rfl⟩
    · apply lookupAccount_eq_none_iff.mpr
      intro b hb
      have := (List.mem_filter.mp hb).2
      intro hc
      rw [hc] at this
      simp at this
    · rw [if_neg (by simp [hfe])]
  · intro s email acc hl hfe
    have hres : Gmail.resolveEmailFromAlias s.registry email = email :=
      resolve_of_presentG (by simp [hl])
    rw [Gmail.removeAccount, hres, hl]
    dsimp only
    refine ⟨rfl, ?_, ?_, rfl⟩
    · apply lookupAccountG_eq_none_iff.mpr
      intro b hb
      have := (List.mem_filter.mp hb).2
      intro hc
      rw [hc] at this
      simp at this
    · rw [if_neg (by simp [hfe])]

/-- A state whose only registered account has lost its credential file. -/
def orphanState : Icloud.MState :=
  ⟨[⟨"dora@icloud.com", none, "accounts/dora@icloud.com.json", 2⟩], [], some "dora@icloud.com"⟩

/-- C10 witness: removing the orphaned account succeeds, clears the entry
and the active pointer, and leaves the (empty) file list untouched. -/
theorem remove_account_missing_file_witness :
    (Icloud.removeAccount orphanState "dora@icloud.com").2 = none ∧
      Icloud.lookupAccount (Icloud.removeAccount orphanState "dora@icloud.com").1.registry
        "dora@icloud.com" = none ∧
      (Icloud.removeAccount orphanState "dora@icloud.com").1.files = orphanState.files ∧
      (Icloud.removeAccount orphanState "dora@icloud.com").1.active =
        (if orphanState.active = some "dora@icloud.com" then none else orphanState.active) :=
  remove_account_missing_file.1 orphanState "dora@icloud.com"
    ⟨"dora@icloud.com", none, "accounts/dora@icloud.com.json", 2⟩ (by decide) (by decide)

/-! Generic first-match lemma used for folder and attachment scans. -/

theorem find?_append_cons_first {α : Type} (p : α → Bool) (l₁ l₂ : List α) (f : α)
    (h1 : ∀ g ∈ l₁, p g = false) (hf : p f = true) :
    (l₁ ++ f :: l₂).find? p = some f := by
  induction l₁ with
  | nil => simp [List.find?_cons_of_pos _ hf]
  | cons c t ih =>
    rw [List.cons_append,
      List.find?_cons_of_neg _ (by simp [h1 c (List.mem_cons_self _ _)])]
    exact ih (fun g hg => h1 g (List.mem_cons_of_mem _ hg))

/-- C3: trash fallback.  With permanent = false, deleteEmail moves the
message to the first folder that is trash-like (special-use Trash marker,
case-insensitive path substring trash, or exact path Deleted Messages);
when the folder list contains no such folder, it instead issues the
flag-Deleted and expunge commands (permanent deletion), not an error and
not a no-op. -/
theorem trash_fallback :
    (∀ (folders : List Imap.FolderInfo) (uid : String) (folder : Option String)
        (s : Imap.MailboxCache),
        (∀ f ∈ folders, Imap.isTrashFolder f = false) →
        (Imap.deleteEmail uid folder false folders s).1 =
          (Imap.selectMailbox (folder.getD "INBOX") s).1 ++
            [.listFoldersCmd, .flagDeleted uid, .expungeMsg uid]) ∧
    (∀ (l₁ l₂ : List Imap.FolderInfo) (f : Imap.FolderInfo) (uid : String)
        (folder : Option String) (s : Imap.MailboxCache),
        (∀ g ∈ l₁, Imap.isTrashFolder g = false) →
        Imap.isTrashFolder f = true →
        (Imap.deleteEmail uid folder false (l₁ ++ f :: l₂) s).1 =
          (Imap.selectMailbox (folder.getD "INBOX") s).1 ++
            [.listFoldersCmd, .moveMsg uid f.path]) := by
  constructor
  · intro folders uid folder s h
    have hfind : Imap.findTrashFolder folders = none := by
      rw [Imap.findTrashFolder]
      exact List.find?_eq_none.mpr (by intro x hx; simp [h x hx])
    rw [Imap.deleteEmail]
    simp [hfind]
  · intro l₁ l₂ f uid folder s h1 hf
    have hfind : Imap.findTrashFolder (l₁ ++ f :: l₂) = some f := by
      rw [Imap.findTrashFolder]
      exact find?_append_cons_first _ l₁ l₂ f h1 hf
    rw [Imap.deleteEmail]
    simp [hfind]

/-- C3 witness: a folder list with no trash-like folder falls back to
flag-and-expunge, and a list whose second folder is Trash moves there. -/
theorem trash_fallback_witness :
    (Imap.deleteEmail "7" none false
        [⟨"INBOX", "INBOX", none, []⟩, ⟨"Archive", "Archive", none, []⟩] none).1 =
      (Imap.selectMailbox "INBOX" (none : Imap.MailboxCache)).1 ++
        [.listFoldersCmd, .flagDeleted "7", .expungeMsg "7"] ∧
    (Imap.deleteEmail "7" none false
        [⟨"INBOX", "INBOX", none, []⟩, ⟨"Trash", "Trash", none, []⟩] none).1 =
      (Imap.selectMailbox "INBOX" (none : Imap.MailboxCache)).1 ++
        [.listFoldersCmd, .moveMsg "7" "Trash"] :=
  ⟨trash_fallback.1 [⟨"INBOX", "INBOX", none, []⟩, ⟨"Archive", "Archive", none, []⟩]
      "7" none none (by decide),
    trash_fallback.2 [⟨"INBOX", "INBOX", none, []⟩] [] ⟨"Trash", "Trash", none, []⟩
      "7" none none (by decide) (by decide)⟩

/-- Attachments used to separate the code from the tiered spec wording:
the first has only a filename, the second only a content-id, both equal
to the identifier x. -/
def tierAtts : List Imap.ParsedAttachment :=
  [⟨none, some "x", [1], "text/a"⟩, ⟨some "x", none, [2], "text/b"⟩]

/-- Attachments for the positional-identifier sentence: the first has
neither content-id nor filename, the second has filename 0. -/
def posAtts : List Imap.ParsedAttachment :=
  [⟨none, none, [9], "text/c"⟩, ⟨none, some "0", [8], "text/d"⟩]

/-- C9, counterexample.  The code locates an attachment in ONE forward
scan over content-id-or-filename, not in two tiers: on tierAtts with
identifier x it returns the filename-matching first attachment (bytes 1)
where the tiered rule of the claim returns the content-id-matching second
attachment (bytes 2).  And on posAtts the identifier 0 returns the bytes
of the SECOND attachment (whose filename is the string 0), not the bytes
of the first attachment, although the first has neither content-id nor
filename. -/
theorem attachment_match_cex :
    Imap.locateAttachment tierAtts "x" ≠ Imap.locateAttachmentSpec tierAtts "x" ∧
      (Imap.locateAttachment tierAtts "x").map Imap.DownloadResult.content = some [1] ∧
      (Imap.locateAttachmentSpec tierAtts "x").map Imap.DownloadResult.content = some [2] ∧
      (Imap.locateAttachment posAtts "0").map Imap.DownloadResult.content = some [8] := by
  refine ⟨by decide, by decide, by decide, by decide⟩

/-- C9, amended.  downloadAttachment locates the attachment by a single
forward scan returning the first attachment whose content-id OR filename
exactly equals the identifier; only when no attachment matches either
field does it fall back to the positional index parsed from the
identifier; it fails (attachment not found) when that also misses.  In
particular, for an attachment with neither content-id nor filename that
is the first attachment, the identifier 0 returns its bytes PROVIDED no
attachment in the message has content-id or filename equal to the string
0 (third conjunct, instantiated in the witness). -/
theorem attachment_match :
    (∀ (atts : List Imap.ParsedAttachment) (partId : String),
        (∀ a ∈ atts, Imap.attMatches partId a = false) →
        (∀ i : Int, Imap.parseIntJS partId = some i → Imap.getAtIdx atts i = none) →
        Imap.locateAttachment atts partId = none) ∧
    (∀ (l₁ l₂ : List Imap.ParsedAttachment) (a : Imap.ParsedAttachment) (partId : String),
        (∀ b ∈ l₁, Imap.attMatches partId b = false) →
        Imap.attMatches partId a = true →
        Imap.locateAttachment (l₁ ++ a :: l₂) partId =
          some ⟨a.content, Imap.jsStringOr a.filename "attachment", a.contentType⟩) ∧
    (∀ (atts : List Imap.ParsedAttachment) (partId : String) (i : Int)
        (a : Imap.ParsedAttachment),
        (∀ b ∈ atts, Imap.attMatches partId b = false) →
        Imap.parseIntJS partId = some i →
        Imap.getAtIdx atts i = some a →
        Imap.locateAttachment atts partId =
          some ⟨a.content, Imap.jsStringOr a.filename ("attachment-" ++ toString i),
            a.contentType⟩) := by
  refine ⟨?_, ?_, ?_⟩
  · intro atts partId hm hidx
    have hfind : atts.find? (Imap.attMatches partId) = none :=
      List.find?_eq_none.mpr (by intro x hx; simp [hm x hx])
    rw [Imap.locateAttachment]
    cases hp : Imap.parseIntJS partId with
    | none => simp [hfind, hp]
    | some i => simp [hfind, hp, hidx i hp]
  · intro l₁ l₂ a partId h1 ha
    have hfind : (l₁ ++ a :: l₂).find? (Imap.attMatches partId) = some a :=
      find?_append_cons_first _ l₁ l₂ a h1 ha
    rw [Imap.locateAttachment, hfind]
  · intro atts partId i a hm hp hi
    have hfind : atts.find? (Imap.attMatches partId) = none :=
      List.find?_eq_none.mpr (by intro x hx; simp [hm x hx])
    rw [Imap.locateAttachment]
    simp [hfind, hp, hi]

/-- C9 witness: the three amended conjuncts at concrete attachment lists;
in particular the positional fallback on an attachment with neither
content-id nor filename via identifier 0. -/
theorem attachment_match_witness :
    Imap.locateAttachment [⟨none, none, [9], "text/c"⟩] "zzz" = none ∧
      Imap.locateAttachment tierAtts "x" =
        some ⟨[1], "x", "text/a"⟩ ∧
      Imap.locateAttachment [⟨none, none, [9], "text/c"⟩] "0" =
        some ⟨[9], "attachment-0", "text/c"⟩ :=
  ⟨attachment_match.1 [⟨none, none, [9], "text/c"⟩] "zzz" (by decide)
      (by intro i hp; cases (by decide : Imap.parseIntJS "zzz" = none) ▸ hp),
    attachment_match.2.1 [] [⟨some "x", none, [2], "text/b"⟩]
      ⟨none, some "x", [1], "text/a"⟩ "x" (by decide) (by decide),
    attachment_match.2.2 [⟨none, none, [9], "text/c"⟩] "0" 0
      ⟨none, none, [9], "text/c"⟩ (by decide) (by decide) (by decide)⟩

theorem selectMailbox_fst (m : String) (s : Imap.MailboxCache) :
    (Imap.selectMailbox m s).1 = if s = some m then [] else [.openBox m] := by
  rw [Imap.selectMailbox]
  split
  · rfl
  · rfl

theorem countOpens_append (t1 t2 : List Imap.ImapCmd) :
    Imap.countOpens (t1 ++ t2) = Imap.countOpens t1 + Imap.countOpens t2 :=
  List.countP_append _ _ _

theorem selectMailbox_snd (m : String) (s : Imap.MailboxCache) :
    (Imap.selectMailbox m s).2 = some m := by
  rw [Imap.selectMailbox]
  split
  · rename_i h; rw [h]
  · rfl

theorem markEmailsRead_state (uids : List String) (f : String) (s : Imap.MailboxCache) :
    (Imap.markEmailsRead uids (some f) s).2.1 = some f := by
  rw [Imap.markEmailsRead]
  dsimp only [Option.getD]
  split
  · exact selectMailbox_snd f s
  · split
    · exact selectMailbox_snd f s
    · exact selectMailbox_snd f s

theorem markEmailsRead_opens (uids : List String) (f : String) (s : Imap.MailboxCache) :
    Imap.countOpens (Imap.markEmailsRead uids (some f) s).1 =
      (if s = some f then 0 else 1) := by
  rw [Imap.markEmailsRead]
  dsimp only [Option.getD]
  have hsel : Imap.countOpens (Imap.selectMailbox f s).1 = (if s = some f then 0 else 1) := by
    rw [selectMailbox_fst]
    split
    · rfl
    · rfl
  split
  · exact hsel
  · split
    · exact hsel
    · rw [countOpens_append, hsel,
        show Imap.countOpens [Imap.ImapCmd.addSeen (List.filterMap Imap.parseIntJS uids)] = 0
          from rfl,
        Nat.add_zero]

/-- C7, counterexample.  The flag-change operation markEmailsRead does
NOT invalidate the cached selected mailbox: after marking a message read
in INBOX the cache still holds INBOX, contradicting the claim that every
mailbox-mutating operation (move, permanent delete, and flag-change)
leaves the cache invalidated. -/
theorem mailbox_cache_cex :
    (Imap.markEmailsRead ["5"] (some "INBOX") none).2.1 = some "INBOX" ∧
      some "INBOX" ≠ (none : Imap.MailboxCache) := by
  refine ⟨by decide, by decide⟩

/-- C7, amended.  selectMailbox issues a mailbox-open command exactly
when the cached mailbox differs from the requested one (and leaves the
cache at the requested mailbox); moveEmail and deleteEmail invalidate the
cache afterward; the flag-change markEmailsRead does not invalidate it,
and precisely because of that, two consecutive same-folder flag
operations issue exactly one mailbox-select. -/
theorem mailbox_cache_discipline :
    (∀ (m : String) (s : Imap.MailboxCache),
        (Imap.selectMailbox m s).1 = (if s = some m then [] else [.openBox m]) ∧
          (Imap.selectMailbox m s).2 = some m) ∧
    (∀ (uid src dest : String) (s : Imap.MailboxCache),
        (Imap.moveEmail uid src dest s).2 = none) ∧
    (∀ (uid : String) (folder : Option String) (perm : Bool)
        (folders : List Imap.FolderInfo) (s : Imap.MailboxCache),
        (Imap.deleteEmail uid folder perm folders s).2 = none) ∧
    (∀ (uids1 uids2 : List String) (f : String) (s : Imap.MailboxCache),
        s ≠ some f →
        Imap.countOpens ((Imap.markEmailsRead uids1 (some f) s).1 ++
          (Imap.markEmailsRead uids2 (some f)
            (Imap.markEmailsRead uids1 (some f) s).2.1).1) = 1) := by
  refine ⟨?_, ?_, ?_, ?_⟩
  · intro m s
    exact ⟨selectMailbox_fst m s, selectMailbox_snd m s⟩
  · intro uid src dest s
    rfl
  · intro uid folder perm folders s
    rw [Imap.deleteEmail]
  · intro uids1 uids2 f s hs
    rw [countOpens_append, markEmailsRead_opens, if_neg hs, markEmailsRead_state,
      markEmailsRead_opens, if_pos rfl]

/-- C7 witness: two consecutive mark-read calls on INBOX from a cold
cache issue exactly one mailbox-open command. -/
theorem mailbox_cache_witness :
    ((none : Imap.MailboxCache) ≠ some "INBOX") ∧
      Imap.countOpens ((Imap.markEmailsRead ["5"] (some "INBOX") none).1 ++
        (Imap.markEmailsRead ["6"] (some "INBOX")
          (Imap.markEmailsRead ["5"] (some "INBOX") none).2.1).1) = 1 :=
  ⟨by decide, mailbox_cache_discipline.2.2.2 ["5"] ["6"] "INBOX" none (by decide)⟩

instance : IsTotal Nat (fun a b => b ≤ a) := ⟨fun a b => le_total b a⟩

instance : IsTrans Nat (fun a b => b ≤ a) := ⟨fun _ _ _ h1 h2 => le_trans h2 h1⟩

theorem sortDescUids_pairwise_gt {l : List Nat} (h : l.Nodup) :
    (Imap.sortDescUids l).Pairwise (· > ·) := by
  have hs : (Imap.sortDescUids l).Pairwise (fun a b => b ≤ a) :=
    List.sorted_insertionSort _ l
  have hn : (Imap.sortDescUids l).Pairwise (· ≠ ·) :=
    ((List.perm_insertionSort _ l).nodup_iff).mpr h
  exact (hs.and hn).imp (fun hab => lt_of_le_of_ne hab.1 (Ne.symm hab.2))

theorem map_fst_filterMap_sublist {η : Type} (fetchEnv : Nat → Option η) :
    ∀ l : List Nat,
      ((l.filterMap (fun u => (fetchEnv u).map (fun e => (u, e)))).map Prod.fst).Sublist l := by
  intro l
  induction l with
  | nil => simp
  | cons a t ih =>
    rw [List.filterMap_cons]
    cases fetchEnv a with
    | none => exact ih.cons a
    | some e =>
      rw [Option.map_some', List.map_cons]
      exact ih.cons₂ a

/-- C6, counterexample.  The claim quantifies over every maxResults value
N, but the code computes `options.maxResults || 50`, so maxResults = 0 is
treated as absent and the default of 50 applies: a search matching two
UIDs with maxResults 0 returns two results, not at most zero. -/
theorem search_bound_cex :
    ¬ ((Imap.searchEmails [3, 7] (some 0) (fun _ : Nat => some ())).length ≤ 0) := by
  decide

/-- C6, amended.  For every provided maxResults N with N positive (zero
is treated as absent by `maxResults || 50`), searchEmails returns at most
N results; the returned UIDs are strictly descending (given the distinct
UID list the protocol search yields); the sorted and truncated UID list
alone feeds the envelope-fetch stage; an empty criteria set builds the
match-all query; and an empty search result yields the empty list rather
than an error. -/
theorem search_bound :
    (∀ (η : Type) (uids : List Nat) (N : Nat) (fetchEnv : Nat → Option η),
        0 < N → (Imap.searchEmails uids (some N) fetchEnv).length ≤ N) ∧
    (∀ (η : Type) (uids : List Nat) (mr : Option Nat) (fetchEnv : Nat → Option η),
        uids.Nodup →
        ((Imap.searchEmails uids mr fetchEnv).map Prod.fst).Pairwise (· > ·)) ∧
    Imap.buildQuery Imap.emptyCriteria = .all ∧
    (∀ (η : Type) (mr : Option Nat) (fetchEnv : Nat → Option η),
        Imap.searchEmails [] mr fetchEnv = []) := by
  refine ⟨?_, ?_, by decide, ?_⟩
  · intro η uids N fetchEnv hN
    rw [Imap.searchEmails]
    split
    · simp
    · have heff : Imap.effectiveMax (some N) = N := by
        rw [Imap.effectiveMax, if_neg (Nat.pos_iff_ne_zero.mp hN)]
      rw [heff]
      exact le_trans (List.length_filterMap_le _ _) (List.length_take_le _ _)
  · intro η uids mr fetchEnv hnd
    rw [Imap.searchEmails]
    split
    · simp
    · have hsub : (((Imap.sortDescUids uids).take (Imap.effectiveMax mr)).filterMap
          (fun u => (fetchEnv u).map (fun e => (u, e)))).map Prod.fst
            |>.Sublist (Imap.sortDescUids uids) :=
        (map_fst_filterMap_sublist fetchEnv _).trans (List.take_sublist _ _)
      exact List.Pairwise.sublist hsub (sortDescUids_pairwise_gt hnd)
  · intro η mr fetchEnv
    rfl

/-- C6 witness: a three-UID search with maxResults 2 returns at most two
results with strictly descending UIDs. -/
theorem search_bound_witness :
    (Imap.searchEmails [3, 9, 7] (some 2) (fun _ : Nat => some ())).length ≤ 2 ∧
      ((Imap.searchEmails [3, 9, 7] (some 2) (fun _ : Nat => some ())).map
        Prod.fst).Pairwise (· > ·) :=
  ⟨search_bound.1 Unit [3, 9, 7] 2 (fun _ => some ()) (by decide),
    search_bound.2.1 Unit [3, 9, 7] (some 2) (fun _ => some ()) (by decide)⟩

theorem chunksOf_flatten {α : Type} {b : Nat} (_hb : 0 < b) (l : List α) :
    (chunksOf b l).flatten = l := by
  have aux : ∀ (n : Nat) (l : List α), l.length ≤ n → (chunksOf b l).flatten = l := by
    intro n
    induction n with
    | zero =>
      intro l hl
      have : l = [] := List.eq_nil_of_length_eq_zero (Nat.le_zero.mp hl)
      subst this
      rw [chunksOf]
      rfl
    | succ n ih =>
      intro l hl
      cases l with
      | nil =>
        rw [chunksOf]
        rfl
      | cons a t =>
        rw [chunksOf, List.flatten_cons]
        rw [ih (t.drop (b - 1)) (by
          rw [List.length_drop]
          rw [List.length_cons] at hl
          omega)]
        rw [List.cons_append, List.take_append_drop]
  exact aux l.length l le_rfl

theorem chunksOf_length_le {α : Type} {b : Nat} (hb : 0 < b) (l : List α) :
    ∀ c ∈ chunksOf b l, c.length ≤ b := by
  have aux : ∀ (n : Nat) (l : List α), l.length ≤ n → ∀ c ∈ chunksOf b l, c.length ≤ b := by
    intro n
    induction n with
    | zero =>
      intro l hl c hc
      have : l = [] := List.eq_nil_of_length_eq_zero (Nat.le_zero.mp hl)
      subst this
      rw [chunksOf] at hc
      cases hc
    | succ n ih =>
      intro l hl c hc
      cases l with
      | nil =>
        rw [chunksOf] at hc
        cases hc
      | cons a t =>
        rw [chunksOf] at hc
        rcases List.mem_cons.mp hc with rfl | hc
        · rw [List.length_cons, List.length_take]
          omega
        · exact ih (t.drop (b - 1)) (by
            rw [List.length_drop]
            rw [List.length_cons] at hl
            omega) c hc
  exact aux l.length l le_rfl

theorem retryChunkItems_cons {α β ε : Type} (f : List α → Except ε (List β))
    (a : α) (t : List α) :
    retryChunkItems f (a :: t) =
      match f [a] with
      | .ok rs => (rs ++ (retryChunkItems f t).1, (retryChunkItems f t).2)
      | .error e => ((retryChunkItems f t).1, (a, e) :: (retryChunkItems f t).2) := rfl

theorem retryChunkItems_count {α β ε : Type} {f : List α → Except ε (List β)}
    (hf : ∀ l rs, f l = .ok rs → rs.length = l.length) (chunk : List α) :
    (retryChunkItems f chunk).1.length + (retryChunkItems f chunk).2.length = chunk.length := by
  induction chunk with
  | nil => rfl
  | cons a t ih =>
    rw [retryChunkItems_cons]
    cases hfa : f [a] with
    | ok rs =>
      have : rs.length = 1 := hf [a] rs hfa
      simp only [List.length_append, List.length_cons, this]
      omega
    | error e =>
      simp only [List.length_cons]
      omega

theorem retryChunkItems_failures {α β ε : Type} (f : List α → Except ε (List β)) :
    ∀ (chunk : List α), ∀ p ∈ (retryChunkItems f chunk).2, f [p.1] = .error p.2 := by
  intro chunk
  induction chunk with
  | nil => intro p hp; cases hp
  | cons a t ih =>
    intro p hp
    rw [retryChunkItems_cons] at hp
    cases hfa : f [a] with
    | ok rs =>
      rw [hfa] at hp
      exact ih p hp
    | error e =>
      rw [hfa] at hp
      rcases List.mem_cons.mp hp with rfl | hp
      · exact hfa
      · exact ih p hp

theorem processChunk_count {α β ε : Type} {f : List α → Except ε (List β)}
    (hf : ∀ l rs, f l = .ok rs → rs.length = l.length) (chunk : List α) :
    (processChunk f chunk).1.length + (processChunk f chunk).2.length = chunk.length := by
  rw [processChunk]
  cases hfc : f chunk with
  | ok rs => simp [hf chunk rs hfc]
  | error e => exact retryChunkItems_count hf chunk

theorem processChunk_failures {α β ε : Type} (f : List α → Except ε (List β))
    (chunk : List α) : ∀ p ∈ (processChunk f chunk).2, f [p.1] = .error p.2 := by
  rw [processChunk]
  cases hfc : f chunk with
  | ok rs => intro p hp; cases hp
  | error e => exact retryChunkItems_failures f chunk

theorem processBatches_cons {α β ε : Type} (f : List α → Except ε (List β))
    (c : List α) (cs : List (List α)) :
    ((c :: cs).foldr
      (fun chunk acc => ((processChunk f chunk).1 ++ acc.1, (processChunk f chunk).2 ++ acc.2))
      (([], []) : List β × List (α × ε))) =
      ((processChunk f c).1 ++ (cs.foldr
          (fun chunk acc =>
            ((processChunk f chunk).1 ++ acc.1, (processChunk f chunk).2 ++ acc.2))
          ([], [])).1,
        (processChunk f c).2 ++ (cs.foldr
          (fun chunk acc =>
            ((processChunk f chunk).1 ++ acc.1, (processChunk f chunk).2 ++ acc.2))
          ([], [])).2) := rfl

/-- C2: batch partial-failure isolation.  processBatches splits the input
into consecutive chunks of at most the chunk size whose concatenation is
the input; assuming the per-call processor returns one result per item on
success (as the Promise.all mappers of batch_modify_emails and
batch_delete_emails do), every input item lands in exactly one of the two
partitions, so the success count plus the failure count equals the input
length; and every recorded failure carries the error of the individual
retry of exactly that item, so one failing item never aborts sibling
items or later chunks. -/
theorem batch_partial_failure (α β ε : Type) (f : List α → Except ε (List β))
    (b : Nat) (items : List α) (hb : 0 < b)
    (hf : ∀ l rs, f l = .ok rs → rs.length = l.length) :
    (∀ c ∈ chunksOf b items, c.length ≤ b) ∧
    (chunksOf b items).flatten = items ∧
    (processBatches f b items).1.length + (processBatches f b items).2.length =
      items.length ∧
    (∀ p ∈ (processBatches f b items).2, f [p.1] = .error p.2) := by
  refine ⟨chunksOf_length_le hb items, chunksOf_flatten hb items, ?_, ?_⟩
  · have aux : ∀ cs : List (List α),
        ((cs.foldr (fun chunk acc =>
            ((processChunk f chunk).1 ++ acc.1, (processChunk f chunk).2 ++ acc.2))
          (([], []) : List β × List (α × ε))).1.length +
          (cs.foldr (fun chunk acc =>
            ((processChunk f chunk).1 ++ acc.1, (processChunk f chunk).2 ++ acc.2))
          ([], [])).2.length) = (cs.map List.length).sum := by
      intro cs
      induction cs with
      | nil => rfl
      | cons c cs ih =>
        rw [processBatches_cons]
        have h1 := processChunk_count hf c
        simp only [List.length_append, List.map_cons, List.sum_cons]
        omega
    rw [processBatches, aux]
    rw [← List.length_flatten, chunksOf_flatten hb items]
  · have aux : ∀ cs : List (List α), ∀ p ∈ (cs.foldr (fun chunk acc =>
        ((processChunk f chunk).1 ++ acc.1, (processChunk f chunk).2 ++ acc.2))
        (([], []) : List β × List (α × ε))).2, f [p.1] = .error p.2 := by
      intro cs
      induction cs with
      | nil => intro p hp; cases hp
      | cons c cs ih =>
        intro p hp
        rw [processBatches_cons] at hp
        rcases List.mem_append.mp hp with hp | hp
        · exact processChunk_failures f c p hp
        · exact ih p hp
    rw [processBatches]
    exact aux (chunksOf b items)

/-- A processor that fails exactly on the item 3 and otherwise returns
its input, modelling a per-item Gmail modify call. -/
def demoBatchFn : List Nat → Except Unit (List Nat) :=
  fun l => if l.contains 3 then .error () else .ok l

/-- C2 witness: five items in chunks of two, one failing item; four
successes and one failure, summing to the input length, and the failure
carries the individual error of item 3. -/
theorem batch_partial_failure_witness :
    0 < 2 ∧
      (processBatches demoBatchFn 2 [1, 3, 4, 5, 6]).1.length +
        (processBatches demoBatchFn 2 [1, 3, 4, 5, 6]).2.length = 5 ∧
      (∀ p ∈ (processBatches demoBatchFn 2 [1, 3, 4, 5, 6]).2,
        demoBatchFn [p.1] = .error p.2) :=
  ⟨by decide,
    (batch_partial_failure Nat Nat Unit demoBatchFn 2 [1, 3, 4, 5, 6] (by decide)
      (by
        intro l rs h
        rw [demoBatchFn] at h
        split at h
        · cases h
        · cases h
          rfl)).2.2.1,
    (batch_partial_failure Nat Nat Unit demoBatchFn 2 [1, 3, 4, 5, 6] (by decide)
      (by
        intro l rs h
        rw [demoBatchFn] at h
        split at h
        · cases h
        · cases h
          rfl)).2.2.2⟩

end GmailMcp
